import Mathlib

/-!
Verification of `glores.py`, a workspace sync tool: it captures the
identities (name, remote url, branch, commit) of every git repository found
under a workspace directory into a `glores.yaml` file stored inside one
anchor repository's `.git` directory (`update`), and later checks every
discovered repository out to the commit recorded for its name (`apply`).

The embedding models, from the source:
  - identity records and the configuration dictionary (`RepoInfo`, `Config`);
  - the snapshot store `read_glores_yaml` / `write_glores_yaml`, with the
    on-disk file modelled at the parsed-document level: PyYAML's
    `safe_dump` / `safe_load` are an external library, not code of this
    repository, and act as the identity on document values, with an empty or
    whitespace-only file parsing to the null document and Python's `or`
    applying truthiness to the loaded value;
  - the inspector `get_repo_info`, over an abstract git repository state;
  - the discovery walk `find_git_repos`, over a directory tree
    (`os.walk` visits every directory top-down and the source consults only
    the subdirectory-name component of each triple, so files are not
    modelled);
  - the `update` (capture) and `apply` (restore) command bodies, with the
    per-repository git effects of `apply` abstracted into an outcome value
    per discovered repository.
-/

namespace Glores

/-- One repository identity record, the dictionary built by `get_repo_info`
with keys `name`, `url`, `branch`, `commit-hash` (all strings). Python's
`==` and `in` on such dictionaries are structural equality on all four
fields, which `DecidableEq` mirrors. -/
structure RepoInfo where
  name : String
  url : String
  branch : String
  commitHash : String
deriving DecidableEq, Repr

/-- The glores configuration dictionary `{'repo-info': [...], 'ws-status': [...]}`. -/
structure Config where
  repoInfo : List RepoInfo
  wsStatus : List RepoInfo
deriving DecidableEq, Repr

/-- The body of `init_glores_config`: `{'repo-info': [], 'ws-status': []}`. -/
def init_glores_config : Config :=
  { repoInfo := [], wsStatus := [] }

/-- A parsed YAML document as far as this program ever stores one: either
the null document (what `yaml.safe_load` returns for an empty file) or a
configuration dictionary (the only value `write_glores_yaml` ever dumps). -/
inductive Doc where
  | null
  | dict (c : Config)
deriving DecidableEq, Repr

/-- Python truthiness of a loaded document, as tested by the `or` in
`read_glores_yaml`: `None` is falsy; a configuration dictionary always has
its two keys, hence is a non-empty dict and truthy. -/
def docTruthy : Doc → Bool
  | .null => false
  | .dict _ => true

/-- The body of `read_glores_yaml`. The snapshot file is `Option Doc`:
`none` when `glores_yaml_path.exists()` is false, `some d` when the file
exists and parses to document `d`. The source returns
`yaml.safe_load(f) or {'repo-info': [], 'ws-status': []}`. -/
def read_glores_yaml (file : Option Doc) : Config :=
  match file with
  | none => { repoInfo := [], wsStatus := [] }
  | some d =>
    if docTruthy d then
      match d with
      | .dict c => c
      | .null => { repoInfo := [], wsStatus := [] }
    else { repoInfo := [], wsStatus := [] }

/-- The body of `write_glores_yaml`: the file afterwards exists and holds
the dumped configuration dictionary. -/
def write_glores_yaml (c : Config) : Option Doc :=
  some (Doc.dict c)

/-- The git-level state of one repository directory as `get_repo_info`
consults it: the directory's final path component, the url lists of the
configured remotes in order, the active branch (none when HEAD is detached,
where `repo.active_branch` raises), the HEAD commit hexsha, and whether
`git.Repo(repo_path)` itself raises (corrupt or absent metadata). -/
structure RepoState where
  name : String
  remotes : List (List String)
  activeBranch : Option String
  headCommit : String
  openFails : Bool
deriving DecidableEq, Repr

/-- The body of `get_repo_info`: builds the identity record, with the whole
body under `try/except` returning `None` on any exception. Exceptions
modelled: `git.Repo` raising, `list(repo.remotes[0].urls)[0]` on a remote
with no urls, and `repo.active_branch` raising on a detached HEAD. -/
def get_repo_info (st : RepoState) : Option RepoInfo :=
  if st.openFails then none
  else
    match st.remotes with
    | [] =>
      match st.activeBranch with
      | none => none
      | some b => some { name := st.name, url := "", branch := b, commitHash := st.headCommit }
    | urls :: _ =>
      match urls with
      | [] => none
      | u :: _ =>
        match st.activeBranch with
        | none => none
        | some b => some { name := st.name, url := u, branch := b, commitHash := st.headCommit }

/-- C3: saving any snapshot (a configuration with its two key sequences,
the empty one included) and loading from the same anchor returns a
structurally equal snapshot: a dumped configuration dictionary is non-empty,
hence truthy, so the load-time `or` default is not taken. -/
theorem save_load_roundtrip :
    (∀ c : Config, read_glores_yaml (write_glores_yaml c) = c)
    ∧ read_glores_yaml (write_glores_yaml init_glores_config) = init_glores_config := by
  refine ⟨fun c => rfl, rfl⟩

/-- C4: loading when the snapshot file is absent, and loading when it exists
but is empty (so `yaml.safe_load` returns `None`), both return the empty
snapshot `{'repo-info': [], 'ws-status': []}` without failing. -/
theorem load_absent_or_empty_file :
    read_glores_yaml none = { repoInfo := [], wsStatus := [] }
    ∧ read_glores_yaml (some Doc.null) = { repoInfo := [], wsStatus := [] } :=
  ⟨rfl, rfl⟩

/-- C6: inspecting a repository whose HEAD is detached (no active branch)
fails — `get_repo_info` returns no identity record at all, in particular
none with a defaulted or empty branch. -/
theorem inspect_detached_head_fails (st : RepoState) (h : st.activeBranch = none) :
    get_repo_info st = none := by
  unfold get_repo_info
  cases hof : st.openFails with
  | true => simp
  | false =>
    simp only [Bool.false_eq_true, if_false]
    cases hr : st.remotes with
    | nil => simp [h]
    | cons urls rest =>
      cases urls with
      | nil => rfl
      | cons u us => simp [h]

/-- The loop body of `update` over one discovered repository: inspect it and
append the record to `ws-status` when inspection succeeded (`repo_info` is
truthy) and the record is not in the `repo-info` list. -/
def wsStep (anchorList : List RepoInfo) (acc : List RepoInfo) (r : RepoState) : List RepoInfo :=
  match get_repo_info r with
  | some info => if info ∈ anchorList then acc else acc ++ [info]
  | none => acc

/-- The configuration the `update` command builds: `repo-info` is the
anchor's record as a one-element list (empty when inspection failed, since
`None` is falsy), and `ws-status` accumulates over the discovered
repositories in discovery order. -/
def updateConfig (anchor : RepoState) (repos : List RepoState) : Config :=
  let anchorList : List RepoInfo :=
    match get_repo_info anchor with
    | some info => [info]
    | none => []
  { repoInfo := anchorList, wsStatus := repos.foldl (wsStep anchorList) [] }

/-- The `update` command end to end: build the configuration and write it,
returning the snapshot file afterwards. The write is unconditional. -/
def updateRun (anchor : RepoState) (repos : List RepoState) : Option Doc :=
  write_glores_yaml (updateConfig anchor repos)

/-- Membership in the `ws-status` fold is preserved from the accumulator and
only ever extended by records outside the `repo-info` list. -/
lemma not_mem_foldl_wsStep (anchorList : List RepoInfo) (a : RepoInfo) (ha : a ∈ anchorList) :
    ∀ (l : List RepoState) (acc : List RepoInfo), a ∉ acc → a ∉ l.foldl (wsStep anchorList) acc := by
  intro l
  induction l with
  | nil => intro acc hacc; simpa using hacc
  | cons r t ih =>
    intro acc hacc
    simp only [List.foldl_cons]
    apply ih
    unfold wsStep
    cases hg : get_repo_info r with
    | none => exact hacc
    | some info =>
      by_cases hmem : info ∈ anchorList
      · simp [hmem, hacc]
      · simp only [hmem, if_false, List.mem_append, List.mem_singleton]
        rintro (h | h)
        · exact hacc h
        · exact hmem (h ▸ ha)

/-- C2: whenever inspecting the anchor succeeds, the anchor's identity
record never appears in the `ws-status` sequence of the configuration that
capture writes — any discovered repository whose record is structurally
equal to the anchor's (all four fields) is excluded. -/
theorem capture_excludes_anchor_record (anchor : RepoState) (repos : List RepoState)
    (a : RepoInfo) (h : get_repo_info anchor = some a) :
    a ∉ (updateConfig anchor repos).wsStatus := by
  unfold updateConfig
  simp only [h]
  exact not_mem_foldl_wsStep [a] a (List.mem_singleton.mpr rfl) repos [] (List.not_mem_nil a)

/-- A concrete healthy repository state, used as anchor in witnesses. -/
def anchorState : RepoState :=
  { name := "anchor", remotes := [["git@host:anchor"]], activeBranch := some "main",
    headCommit := "aaa111", openFails := false }

/-- A concrete healthy workspace repository state distinct from the anchor. -/
def otherState : RepoState :=
  { name := "member", remotes := [], activeBranch := some "dev",
    headCommit := "bbb222", openFails := false }

/-- Witness for C2: a workspace walk that rediscovers the anchor itself does
not duplicate the anchor's record into `ws-status`. -/
theorem capture_excludes_anchor_record_witness :
    get_repo_info anchorState = some
      { name := "anchor", url := "git@host:anchor", branch := "main", commitHash := "aaa111" }
    ∧ { name := "anchor", url := "git@host:anchor", branch := "main",
        commitHash := "aaa111" } ∉ (updateConfig anchorState [anchorState, otherState]).wsStatus :=
  ⟨by decide, capture_excludes_anchor_record anchorState [anchorState, otherState] _ (by decide)⟩

/-- C8: capture never aborts on inspection failure. First part: when
inspecting the anchor fails, the written configuration's `repo-info` is
empty and the snapshot is still written. Second part: when inspecting one
discovered repository fails, that repository is omitted and the resulting
configuration is exactly the one obtained without it, so every other
repository is still recorded. -/
theorem capture_tolerates_inspection_failures :
    (∀ (anchor : RepoState) (repos : List RepoState), get_repo_info anchor = none →
      (updateConfig anchor repos).repoInfo = []
      ∧ updateRun anchor repos = some (Doc.dict (updateConfig anchor repos)))
    ∧ (∀ (anchor bad : RepoState) (pre post : List RepoState), get_repo_info bad = none →
      updateConfig anchor (pre ++ bad :: post) = updateConfig anchor (pre ++ post)) := by
  constructor
  · intro anchor repos h
    constructor
    · unfold updateConfig
      simp [h]
    · rfl
  · intro anchor bad pre post h
    unfold updateConfig
    simp only [List.foldl_append, List.foldl_cons]
    have hb : ∀ (al : List RepoInfo) (acc : List RepoInfo), wsStep al acc bad = acc := by
      intro al acc; unfold wsStep; simp [h]
    rw [hb]

/-- A concrete repository state whose HEAD is detached. -/
def detachedState : RepoState :=
  { name := "lib", remotes := [["git@host:lib"]], activeBranch := none,
    headCommit := "abc123", openFails := false }

/-- Witness for C6 at a concrete detached-HEAD repository state. -/
theorem inspect_detached_head_fails_witness :
    detachedState.activeBranch = none ∧ get_repo_info detachedState = none :=
  ⟨rfl, inspect_detached_head_fails detachedState rfl⟩

/-- The name `apply` derives for a discovered repository:
`str(repo_path).split('/')[-1]`, the last path component. Paths are
modelled as their non-empty component lists; `str` of an empty `Path` is
`"."`, whence the default. -/
def repoName (path : List String) : String :=
  path.getLastD "."

/-- A Python dictionary update `d[k] = v` on the string-keyed commit map,
modelled as a function from names to optional hashes. -/
def insertIdx (k v : String) (d : String → Option String) : String → Option String :=
  fun x => if x = k then some v else d x

/-- The commit index `apply` builds: it starts from
`{config['repo-info'][0]['name']: config['repo-info'][0]['commit-hash']}` —
an unguarded index into `repo-info`, so with an empty `repo-info` the
command dies with an uncaught `IndexError` before any checkout (modelled as
`none`) — and then `update`s in each `ws-status` entry, later entries
overriding earlier bindings of the same name. -/
def buildCommitHashes (c : Config) : Option (String → Option String) :=
  match c.repoInfo with
  | [] => none
  | a :: _ =>
    some (c.wsStatus.foldl (fun d r => insertIdx r.name r.commitHash d)
      (insertIdx a.name a.commitHash (fun _ => none)))

/-- The git-level state of one discovered repository as the `apply` loop
touches it: its path, whether `Repo(repo_path)` raises, whether the
repository is bare, which commits exist locally, and whether the working
tree is dirty in a way that makes `git checkout` raise. -/
structure WsRepo where
  path : List String
  openFails : Bool
  bare : Bool
  localCommits : List String
  dirty : Bool
deriving DecidableEq, Repr

/-- What the `apply` loop body does to one discovered repository. Every
exception inside the body is caught by the per-repository `except`, printed
and passed over, so each repository yields exactly one outcome. -/
inductive Outcome where
  | keyError (name : String)
  | skippedFalsyHash (name : String)
  | openError (name : String)
  | skippedBare (name : String)
  | checkoutError (name hash : String)
  | checkedOut (name hash : String)
deriving DecidableEq, Repr

/-- Whether `repo.git.checkout(hash)` succeeds on this repository: the
commit must exist locally and the working tree must not conflict. -/
def checkoutOk (r : WsRepo) (h : String) : Bool :=
  (h ∈ r.localCommits) && !r.dirty

/-- The `apply` loop body for one discovered repository, following the
source order: commit-map lookup (`KeyError` caught), falsy-hash guard
(skipped silently), `Repo` construction (exception caught), bare check
(printed and passed over), checkout (exception caught). -/
def processRepo (idx : String → Option String) (r : WsRepo) : Outcome :=
  match idx (repoName r.path) with
  | none => .keyError (repoName r.path)
  | some h =>
    if h = "" then .skippedFalsyHash (repoName r.path)
    else if r.openFails then .openError (repoName r.path)
    else if r.bare then .skippedBare (repoName r.path)
    else if checkoutOk r h then .checkedOut (repoName r.path) h
    else .checkoutError (repoName r.path) h

/-- The `apply` command end to end: load the snapshot file, build the commit
index (crashing, `none`, when `repo-info` is empty), then process every
discovered repository in order, collecting one outcome each. -/
def applyRun (file : Option Doc) (repos : List WsRepo) : Option (List Outcome) :=
  match buildCommitHashes (read_glores_yaml file) with
  | none => none
  | some idx => some (repos.foldl (fun acc r => acc ++ [processRepo idx r]) [])

/-- How many checkouts an `apply` invocation performed: none at all when it
crashed, else the number of `checkedOut` outcomes. -/
def checkoutCount : Option (List Outcome) → Nat
  | none => 0
  | some outs => outs.countP fun o => match o with | .checkedOut _ _ => true | _ => false

/-- C1 (the code as it is): restoring from an absent snapshot file — whose
load yields the empty snapshot, hence an empty `repo-info` — dies on the
unguarded `config['repo-info'][0]` lookup before the checkout loop, for any
set of discovered repositories: there is no `NoSnapshotError`, only an
uncaught `IndexError`, and zero checkouts are performed. -/
theorem restore_without_snapshot_crashes (repos : List WsRepo) :
    applyRun none repos = none ∧ checkoutCount (applyRun none repos) = 0 := by
  constructor
  · rfl
  · rfl

/-- Accumulating one outcome per repository is a map: the fold never
discards the accumulator, so no repository's outcome can erase another's. -/
lemma foldl_outcomes_eq_map (idx : String → Option String) :
    ∀ (l : List WsRepo) (acc : List Outcome),
      l.foldl (fun acc r => acc ++ [processRepo idx r]) acc = acc ++ l.map (processRepo idx) := by
  intro l
  induction l with
  | nil => intro acc; simp
  | cons r t ih => intro acc; simp [ih]

/-- C5: when the snapshot has an anchor entry (so the index is built), the
restore loop attempts every discovered repository: the outcome list is the
pointwise image of the per-repository body, so one repository's failure —
missing local commit, dirty tree, name absent from the index, invalid
repository — never prevents the remaining ones from being processed, and
each repository's outcome depends on that repository alone. -/
theorem restore_attempts_every_repo (file : Option Doc) (repos : List WsRepo)
    (h : (read_glores_yaml file).repoInfo ≠ []) :
    ∃ idx, buildCommitHashes (read_glores_yaml file) = some idx
      ∧ applyRun file repos = some (repos.map (processRepo idx))
      ∧ ∀ outs, applyRun file repos = some outs → outs.length = repos.length := by
  cases hc : (read_glores_yaml file).repoInfo with
  | nil => exact absurd hc h
  | cons a rest =>
    refine ⟨(read_glores_yaml file).wsStatus.foldl
      (fun d r => insertIdx r.name r.commitHash d)
      (insertIdx a.name a.commitHash (fun _ => none)), ?_, ?_, ?_⟩
    · unfold buildCommitHashes
      rw [hc]
    · unfold applyRun buildCommitHashes
      rw [hc]
      simp only []
      rw [foldl_outcomes_eq_map]
      simp
    · intro outs houts
      unfold applyRun buildCommitHashes at houts
      rw [hc] at houts
      simp only [Option.some.injEq] at houts
      rw [← houts, foldl_outcomes_eq_map]
      simp

/-- A concrete snapshot recording three repositories (anchor plus two). -/
def cfgThree : Config :=
  { repoInfo := [{ name := "anchor", url := "u", branch := "main", commitHash := "ha" }],
    wsStatus := [{ name := "b", url := "", branch := "dev", commitHash := "hb" },
                 { name := "c", url := "", branch := "dev", commitHash := "hc" }] }

/-- The snapshot file holding `cfgThree`. -/
def fileThree : Option Doc :=
  some (Doc.dict cfgThree)

/-- Three discovered repositories: the recorded commit of `c` does not exist
locally, the other two are healthy. -/
def reposThree : List WsRepo :=
  [{ path := ["ws", "anchor"], openFails := false, bare := false,
     localCommits := ["ha"], dirty := false },
   { path := ["ws", "b"], openFails := false, bare := false,
     localCommits := ["hb"], dirty := false },
   { path := ["ws", "c"], openFails := false, bare := false,
     localCommits := [], dirty := false }]

/-- Witness for C5: with three discovered repositories where one recorded
commit does not exist locally, restore still attempts all three, checks the
other two out and reports exactly one failure. -/
theorem restore_attempts_every_repo_witness :
    (∃ idx, buildCommitHashes (read_glores_yaml fileThree) = some idx
      ∧ applyRun fileThree reposThree = some (reposThree.map (processRepo idx))
      ∧ ∀ outs, applyRun fileThree reposThree = some outs → outs.length = reposThree.length)
    ∧ applyRun fileThree reposThree = some
        [.checkedOut "anchor" "ha", .checkedOut "b" "hb", .checkoutError "c" "hc"] :=
  ⟨restore_attempts_every_repo fileThree reposThree (by decide), by decide⟩

/-- Folding dictionary updates over entries none of which bind the looked-up
name leaves that name's binding unchanged. -/
lemma foldl_insertIdx_of_absent (n : String) :
    ∀ (l : List RepoInfo) (d : String → Option String), (∀ r ∈ l, r.name ≠ n) →
      (l.foldl (fun d2 e => insertIdx e.name e.commitHash d2) d) n = d n := by
  intro l
  induction l with
  | nil => intro d _; rfl
  | cons x t ih =>
    intro d hl
    simp only [List.foldl_cons]
    rw [ih _ (fun r hr => hl r (List.mem_cons_of_mem x hr))]
    have hx : x.name ≠ n := hl x (List.mem_cons_self x t)
    simp only [insertIdx]
    rw [if_neg (fun hq => hx hq.symm)]

/-- Folding dictionary updates over entries among which exactly one record
binds the looked-up name ends with that record's commit hash. -/
lemma foldl_insertIdx_of_unique (n : String) (r : RepoInfo) :
    ∀ (l : List RepoInfo) (d : String → Option String), r ∈ l → r.name = n →
      (∀ r2 ∈ l, r2.name = n → r2 = r) →
      (l.foldl (fun d2 e => insertIdx e.name e.commitHash d2) d) n = some r.commitHash := by
  intro l
  induction l with
  | nil => intro d hr _ _; exact absurd hr (List.not_mem_nil r)
  | cons x t ih =>
    intro d hr hn hu
    simp only [List.foldl_cons]
    by_cases hx : ∃ r2 ∈ t, r2.name = n
    · obtain ⟨r2, hr2, hn2⟩ := hx
      have : r2 = r := hu r2 (List.mem_cons_of_mem x hr2) hn2
      subst this
      exact ih _ hr2 hn (fun r3 h3 e3 => hu r3 (List.mem_cons_of_mem x h3) e3)
    · push_neg at hx
      have hrx : r = x := by
        rcases List.mem_cons.mp hr with h | h
        · exact h
        · exact absurd hn (hx r h)
      subst hrx
      rw [foldl_insertIdx_of_absent n t _ hx]
      unfold insertIdx
      simp [hn.symm]

/-- C10: when a name is recorded both as the anchor entry and in
`ws-status`, the commit index binds it to the `ws-status` commit hash —
the workspace entries are merged into the index after the anchor seed, so
they override it — and a healthy discovered repository of that name is
therefore checked out to the `ws-status` commit. -/
theorem restore_ws_status_overrides_anchor (cfg : Config) (a r : RepoInfo)
    (rest : List RepoInfo)
    (h1 : cfg.repoInfo = a :: rest)
    (h2 : r ∈ cfg.wsStatus)
    (h3 : r.name = a.name)
    (h4 : ∀ r2 ∈ cfg.wsStatus, r2.name = a.name → r2 = r) :
    ∃ idx, buildCommitHashes cfg = some idx
      ∧ idx a.name = some r.commitHash
      ∧ ∀ w : WsRepo, repoName w.path = a.name → w.openFails = false → w.bare = false →
          r.commitHash ≠ "" → checkoutOk w r.commitHash = true →
          processRepo idx w = .checkedOut a.name r.commitHash := by
  refine ⟨cfg.wsStatus.foldl (fun d2 e => insertIdx e.name e.commitHash d2)
    (insertIdx a.name a.commitHash (fun _ => none)), ?_, ?_, ?_⟩
  · unfold buildCommitHashes
    rw [h1]
  · exact foldl_insertIdx_of_unique a.name r cfg.wsStatus _ h2 h3 h4
  · intro w hw hopen hbare hhash hok
    have hidx := foldl_insertIdx_of_unique a.name r cfg.wsStatus
      (insertIdx a.name a.commitHash (fun _ => none)) h2 h3 h4
    unfold processRepo
    rw [hw, hidx]
    simp [hhash, hopen, hbare, hok]

/-- A snapshot whose anchor entry and single `ws-status` entry record the
same repository name with different commit hashes. -/
def cfgShadow : Config :=
  { repoInfo := [{ name := "anchor", url := "u", branch := "main", commitHash := "old" }],
    wsStatus := [{ name := "anchor", url := "u", branch := "main", commitHash := "new" }] }

/-- Witness for C10: on `cfgShadow` the index maps the shared name to the
`ws-status` hash, and a healthy repository of that name is checked out to
it, not to the anchor hash. -/
theorem restore_ws_status_overrides_anchor_witness :
    ∃ idx, buildCommitHashes cfgShadow = some idx
      ∧ idx "anchor" = some "new"
      ∧ ∀ w : WsRepo, repoName w.path = "anchor" → w.openFails = false → w.bare = false →
          "new" ≠ "" → checkoutOk w "new" = true →
          processRepo idx w = .checkedOut "anchor" "new" :=
  restore_ws_status_overrides_anchor cfgShadow
    { name := "anchor", url := "u", branch := "main", commitHash := "old" }
    { name := "anchor", url := "u", branch := "main", commitHash := "new" }
    [] rfl (by decide) rfl (by decide)

mutual
/-- A directory in a directory tree: its name and its subdirectories.
Files are not modelled: `find_git_repos` consults only the `dirs` component
of each `os.walk` triple. -/
inductive FsTree where
  | node (dirName : String) (children : Forest)
/-- A finite sequence of sibling directories, in the order `os.walk` lists
them. -/
inductive Forest where
  | nil
  | cons (head : FsTree) (tail : Forest)
end

/-- The name of a directory. -/
def FsTree.dname : FsTree → String
  | .node n _ => n

/-- The subdirectories of a directory. -/
def FsTree.kids : FsTree → Forest
  | .node _ cs => cs

/-- The siblings of a forest as a list, for membership statements. -/
def Forest.toList : Forest → List FsTree
  | .nil => []
  | .cons t ts => t :: Forest.toList ts

/-- The names of the directories of a forest: the `dirs` component that
`os.walk` yields for their parent. -/
def childNames : Forest → List String
  | .nil => []
  | .cons (.node n _) ts => n :: childNames ts

mutual
/-- The `os.walk` traversal from a directory, top-down: the directory's own
triple first (its path and its subdirectory names), then the triples of
each subtree in sibling order. -/
def walkTree (pref : List String) : FsTree → List (List String × List String)
  | .node n cs => (pref ++ [n], childNames cs) :: walkForest (pref ++ [n]) cs
/-- The `os.walk` triples contributed by a forest of siblings. -/
def walkForest (pref : List String) : Forest → List (List String × List String)
  | .nil => []
  | .cons t ts => walkTree pref t ++ walkForest pref ts
end

/-- The body of `find_git_repos`: for every directory `os.walk` visits, the
directory's path is appended to the result exactly when its subdirectory
names contain `.git`. -/
def find_git_repos (workspace : FsTree) : List (List String) :=
  (walkTree [] workspace).foldl
    (fun acc pd => if ".git" ∈ pd.2 then acc ++ [pd.1] else acc) []

/-- The path `p` leads from the root of the tree to the subdirectory `s`:
`p` starts with the root's name and follows child edges. -/
inductive SubdirAt : FsTree → List String → FsTree → Prop where
  | here (n : String) (cs : Forest) : SubdirAt (.node n cs) [n] (.node n cs)
  | there (n : String) (cs : Forest) (c : FsTree) (q : List String) (s : FsTree) :
      c ∈ cs.toList → SubdirAt c q s → SubdirAt (.node n cs) (n :: q) s

mutual
/-- A triple is yielded by the walk of a tree exactly for the directories
reachable in that tree, with their subdirectory names. -/
theorem mem_walkTree (pref p ds : List String) (t : FsTree) :
    (p, ds) ∈ walkTree pref t ↔
      ∃ q s, p = pref ++ q ∧ SubdirAt t q s ∧ ds = childNames s.kids := by
  match t with
  | .node n cs =>
    rw [walkTree, List.mem_cons]
    constructor
    · rintro (hhead | htail)
      · rw [Prod.mk.injEq] at hhead
        exact ⟨[n], .node n cs, hhead.1, SubdirAt.here n cs, hhead.2⟩
      · obtain ⟨c, hc, q, s, hp, hsub, hds⟩ := (mem_walkForest (pref ++ [n]) p ds cs).mp htail
        exact ⟨n :: q, s, by rw [hp, List.append_assoc]; rfl,
          SubdirAt.there n cs c q s hc hsub, hds⟩
    · rintro ⟨q, s, hp, hsub, hds⟩
      cases hsub
      case here => left; rw [Prod.mk.injEq]; exact ⟨hp, hds⟩
      case there =>
        rename_i c q2 hc hsub2
        right
        refine (mem_walkForest (pref ++ [n]) p ds cs).mpr ⟨c, hc, q2, s, ?_, hsub2, hds⟩
        rw [hp, List.append_assoc]
        rfl
/-- A triple is yielded by the walk of a forest exactly when some sibling
tree yields it. -/
theorem mem_walkForest (pref p ds : List String) (f : Forest) :
    (p, ds) ∈ walkForest pref f ↔
      ∃ c ∈ f.toList, ∃ q s, p = pref ++ q ∧ SubdirAt c q s ∧ ds = childNames s.kids := by
  match f with
  | .nil => simp [walkForest, Forest.toList]
  | .cons t ts =>
    rw [walkForest, List.mem_append, mem_walkTree pref p ds t, mem_walkForest pref p ds ts]
    constructor
    · rintro (⟨q, s, h⟩ | ⟨c, hc, rest⟩)
      · exact ⟨t, by simp [Forest.toList], q, s, h⟩
      · exact ⟨c, by simp [Forest.toList, hc], rest⟩
    · rintro ⟨c, hc, rest⟩
      rw [Forest.toList, List.mem_cons] at hc
      cases hc with
      | inl h => left; exact h ▸ rest
      | inr h => right; exact ⟨c, h, rest⟩
end

/-- Membership in the filtering fold of `find_git_repos`: a path is
collected exactly when it was already in the accumulator or some yielded
triple carries it together with a `.git` subdirectory name. -/
lemma mem_foldl_git_filter (x : List String) :
    ∀ (l : List (List String × List String)) (acc : List (List String)),
      x ∈ l.foldl (fun acc pd => if ".git" ∈ pd.2 then acc ++ [pd.1] else acc) acc ↔
        x ∈ acc ∨ ∃ ds, (x, ds) ∈ l ∧ ".git" ∈ ds := by
  intro l
  induction l with
  | nil => intro acc; simp
  | cons pd t ih =>
    intro acc
    rw [List.foldl_cons, ih]
    by_cases hg : ".git" ∈ pd.2
    · rw [if_pos hg]
      constructor
      · rintro (hx | ⟨ds, hds, hgit⟩)
        · rcases List.mem_append.mp hx with hx2 | hx2
          · exact Or.inl hx2
          · have hx3 : x = pd.1 := List.mem_singleton.mp hx2
            refine Or.inr ⟨pd.2, ?_, hg⟩
            have hpd : (x, pd.2) = pd := by rw [hx3]
            exact hpd ▸ List.mem_cons_self pd t
        · exact Or.inr ⟨ds, List.mem_cons_of_mem pd hds, hgit⟩
      · rintro (hx | ⟨ds, hds, hgit⟩)
        · exact Or.inl (List.mem_append.mpr (Or.inl hx))
        · rcases List.mem_cons.mp hds with hds2 | hds2
          · refine Or.inl (List.mem_append.mpr (Or.inr ?_))
            exact List.mem_singleton.mpr (congrArg Prod.fst hds2)
          · exact Or.inr ⟨ds, hds2, hgit⟩
    · rw [if_neg hg]
      constructor
      · rintro (hx | ⟨ds, hds, hgit⟩)
        · exact Or.inl hx
        · exact Or.inr ⟨ds, List.mem_cons_of_mem pd hds, hgit⟩
      · rintro (hx | ⟨ds, hds, hgit⟩)
        · exact Or.inl hx
        · rcases List.mem_cons.mp hds with hds2 | hds2
          · exact absurd (congrArg Prod.snd hds2 ▸ hgit) hg
          · exact Or.inr ⟨ds, hds2, hgit⟩

/-- A repository marker: a subdirectory named `.git`. -/
def gitMarker : FsTree :=
  .node ".git" .nil

/-- A workspace tree with repository markers at depths 0 (`ws` itself),
1 (`ws/a`) and 3 (`ws/misc/deep/repo3`), non-repository directories
interspersed (`docs`, `misc`, `deep`) and internal subdirectories of
repositories (`a/sub`, `repo3/inner`). -/
def exampleWorkspace : FsTree :=
  .node "ws" (.cons gitMarker
    (.cons (.node "a" (.cons gitMarker (.cons (.node "sub" .nil) .nil)))
    (.cons (.node "docs" .nil)
    (.cons (.node "misc" (.cons (.node "deep" (.cons
        (.node "repo3" (.cons gitMarker (.cons (.node "inner" .nil) .nil))) .nil)) .nil))
    .nil))))

/-- C7: `find_git_repos` returns exactly the directories that directly
contain a `.git` subdirectory — every returned path reaches a directory
with a `.git` child and every such directory is returned. On the example
tree with markers at depths 0, 1 and 3, exactly the three repository roots
come back, in traversal order, without their non-repository siblings and
without their internal subdirectories. -/
theorem discovery_finds_exactly_repo_roots :
    (∀ (t : FsTree) (p : List String),
      p ∈ find_git_repos t ↔ ∃ s, SubdirAt t p s ∧ ".git" ∈ childNames s.kids)
    ∧ find_git_repos exampleWorkspace =
        [["ws"], ["ws", "a"], ["ws", "misc", "deep", "repo3"]] := by
  constructor
  · intro t p
    unfold find_git_repos
    rw [mem_foldl_git_filter]
    simp only [List.not_mem_nil, false_or]
    constructor
    · rintro ⟨ds, hmem, hgit⟩
      obtain ⟨q, s, hp, hsub, hds⟩ := (mem_walkTree [] p ds t).mp hmem
      rw [List.nil_append] at hp
      subst hp
      exact ⟨s, hsub, hds ▸ hgit⟩
    · rintro ⟨s, hsub, hgit⟩
      exact ⟨childNames s.kids,
        (mem_walkTree [] p _ t).mpr ⟨p, s, (List.nil_append p).symm, hsub, rfl⟩, hgit⟩
  · decide

/-- The sequence of snapshot-file contents a concurrent reader can observe
while `write_glores_yaml` runs: the old content, then — because
`open(glores_yaml_path, 'w')` truncates the file in place — the empty file
(which parses as the null document), then the fully dumped configuration.
The source uses no temporary file and no rename. -/
def saveObservableStates (old : Option Doc) (c : Config) : List (Option Doc) :=
  [old, some Doc.null, some (Doc.dict c)]

/-- Stated from the claim's words (write to a temporary file then rename,
or equivalent): an atomic overwrite lets a concurrent reader observe only
the old content or the new content, never a half-written intermediate. -/
def AtomicOverwrite (old : Option Doc) (c : Config) (states : List (Option Doc)) : Prop :=
  ∀ st ∈ states, st = old ∨ st = some (Doc.dict c)

/-- Counterexample to C9 as stated: overwriting one concrete non-empty
snapshot file with another exposes the truncated empty file, a state that
is neither the old content nor the new. -/
theorem save_not_atomic_counterexample :
    ¬ AtomicOverwrite (some (Doc.dict cfgThree)) cfgShadow
        (saveObservableStates (some (Doc.dict cfgThree)) cfgShadow) := by
  unfold AtomicOverwrite saveObservableStates
  decide

/-- C9 amended: `write_glores_yaml` overwrites the snapshot file in place —
opening it in write mode truncates it before the new content is written —
so whenever the old content is not already the empty file, a concurrent
reader can observe an intermediate state that is neither the old nor the
new content: the write is not atomic. -/
theorem save_overwrites_in_place (old : Option Doc) (c : Config) (h : old ≠ some Doc.null) :
    saveObservableStates old c = [old, some Doc.null, some (Doc.dict c)]
    ∧ ¬ AtomicOverwrite old c (saveObservableStates old c) := by
  refine ⟨rfl, ?_⟩
  intro hat
  rcases hat (some Doc.null) (by simp [saveObservableStates]) with h1 | h1
  · exact h h1.symm
  · simp at h1

/-- Witness for the amended C9 at a concrete old snapshot and new
configuration. -/
theorem save_overwrites_in_place_witness :
    saveObservableStates (some (Doc.dict cfgThree)) init_glores_config
        = [some (Doc.dict cfgThree), some Doc.null, some (Doc.dict init_glores_config)]
    ∧ ¬ AtomicOverwrite (some (Doc.dict cfgThree)) init_glores_config
        (saveObservableStates (some (Doc.dict cfgThree)) init_glores_config) :=
  save_overwrites_in_place (some (Doc.dict cfgThree)) init_glores_config (by decide)

end Glores
